import Mathlib

/-!
Verification development for the JHP templating runtime.

The definitions below are a shallow embedding of the Rust sources:
  - `crates/parser/src/lib.rs` (template parser, `blocks_to_js`),
  - `crates/executor/src/lib.rs` (executor work loop, render arm, echo),
  - `crates/engine/src/bindings.rs` (the `include` binding),
  - `crates/engine/src/extensions.rs` (native extension call bridge,
    lazily loaded module installers),
  - `crates/engine/src/engine.rs` and `crates/jhp/src/main.rs`
    (executor pool construction).

Strings are modelled as `List Char`: the Rust parser walks the input by
Unicode scalar values (`consume` advances by one `char`), and all byte
positions it stores stay on character boundaries, so a character-level
model is faithful.  The embedded JavaScript engine is external to the
repository; where a claim depends on it, a small executable model of the
exact JavaScript fragment emitted by `blocks_to_js` is used (template
literal cooking, `echo`, sloppy-mode assignment, `String(...)` of a
number, ReferenceError on reading an undeclared identifier), with
anything beyond that fragment mapped to an explicit `outside` marker
about which no theorem claims anything.
-/

namespace Jhp

/-- The backtick character, which delimits JavaScript template literals. -/
def btick : Char := Char.ofNat 96

/-- The single-quote character. -/
def squoteChar : Char := Char.ofNat 39

/-- The opening-brace character. -/
def obrace : Char := Char.ofNat 123

/-- The closing-brace character. -/
def cbrace : Char := Char.ofNat 125

/-- Unicode White_Space property, the set used by the Rust functions
`char::is_whitespace`, `str::trim`, `str::trim_start`, `str::trim_end`. -/
def isRustWhitespace (c : Char) : Bool :=
  let n := c.toNat
  decide (n = 0x20 ∨ (0x9 ≤ n ∧ n ≤ 0xD) ∨ n = 0x85 ∨ n = 0xA0 ∨ n = 0x1680 ∨
    (0x2000 ≤ n ∧ n ≤ 0x200A) ∨ n = 0x2028 ∨ n = 0x2029 ∨ n = 0x202F ∨
    n = 0x205F ∨ n = 0x3000)

/-- Model of Rust `str::trim_start`. -/
def trimStartL (l : List Char) : List Char := l.dropWhile isRustWhitespace

/-- Model of Rust `str::trim_end`. -/
def trimEndL (l : List Char) : List Char := (l.reverse.dropWhile isRustWhitespace).reverse

/-- Model of Rust `str::trim`. -/
def trimL (l : List Char) : List Char := trimEndL (trimStartL l)

/-- From `Parser::parse_html_block`: the HTML-escaping substitution applied to
each character of an Html block (single quote, double quote and backtick are
replaced so they cannot terminate the later `echo`-backtick literal). -/
def escapeChar (c : Char) : List Char :=
  if c = squoteChar then "&#39;".data
  else if c = '"' then "&quot;".data
  else if c = btick then "&#96;".data
  else [c]

/-- The HTML-escaping substitution applied to a whole segment. -/
def escapeL (l : List Char) : List Char := (l.map escapeChar).flatten

/-- Does the remaining input begin with the two-character sequence starting a
script block (`Parser::lookahead` on the open fence)? -/
def startsWithLT : List Char → Bool
  | a :: b :: _ => decide (a = '<' ∧ b = '?')
  | _ => false

/-- Does the remaining input begin with the two-character closing fence
(`Parser::lookahead` on the close fence)? -/
def startsWithQGt : List Char → Bool
  | a :: b :: _ => decide (a = '?' ∧ b = '>')
  | _ => false

/-- Does the list contain the closing fence as a contiguous substring? -/
def hasQGt : List Char → Bool
  | [] => false
  | [_] => false
  | a :: b :: rest => if a = '?' ∧ b = '>' then true else hasQGt (b :: rest)

/-- Mirror of the Rust struct `CodeBlockContent`. -/
structure CodeBlockContent where
  lineno : Nat
  colno : Nat
  content : List Char
  level : Nat
deriving DecidableEq, Repr

/-- Mirror of the Rust enum `CodeBlock`. -/
inductive CodeBlock
  | html (c : CodeBlockContent)
  | javascript (c : CodeBlockContent)
  | expression (c : CodeBlockContent)
deriving DecidableEq, Repr

/-- Position update for consuming one character: `Parser::consume` bumps the
byte position, the parse loops bump `line` on a newline, and `column_at`
recomputed from scratch equals this incremental 1-based column. -/
def stepPos (c : Char) (line col : Nat) : Nat × Nat :=
  if c = '\n' then (line + 1, 1) else (line, col + 1)

/-- Output of one of the two consuming loops of the parser. -/
structure LoopOut where
  buf : List Char
  rest : List Char
  line : Nat
  col : Nat
deriving DecidableEq, Repr

/-- The consuming loop of `Parser::parse_html_block`: consume and escape
characters until the open fence or end of input. -/
def htmlLoop : List Char → Nat → Nat → LoopOut
  | [], line, col => ⟨[], [], line, col⟩
  | c :: cs, line, col =>
    if startsWithLT (c :: cs) then ⟨[], c :: cs, line, col⟩
    else
      let p := stepPos c line col
      let o := htmlLoop cs p.1 p.2
      ⟨escapeChar c ++ o.buf, o.rest, o.line, o.col⟩

/-- The consuming loop of `Parser::parse_js_block`: consume raw characters
until the close fence or end of input. -/
def jsLoop : List Char → Nat → Nat → LoopOut
  | [], line, col => ⟨[], [], line, col⟩
  | c :: cs, line, col =>
    if startsWithQGt (c :: cs) then ⟨[], c :: cs, line, col⟩
    else
      let p := stepPos c line col
      let o := jsLoop cs p.1 p.2
      ⟨c :: o.buf, o.rest, o.line, o.col⟩

/-- Output of parsing one block. -/
structure BlockOut where
  block : CodeBlock
  rest : List Char
  line : Nat
  col : Nat
  nesting : Nat
deriving Repr

/-- Mirror of `Parser::parse_html_block`.  The block records the line and
column of its first character and the nesting level current at entry. -/
def parseHtmlBlock (l : List Char) (line col nesting : Nat) : BlockOut :=
  let o := htmlLoop l line col
  { block := .html ⟨line, col, o.buf, nesting⟩
    rest := o.rest, line := o.line, col := o.col, nesting := nesting }

/-- Mirror of `Parser::parse_js_block`.  Precondition (established by the
caller `parse`): `l` begins with the open fence.  The two fence characters
are consumed, the body is collected raw, the close fence (if present) is
consumed, and the body is classified as Expression or Javascript. -/
def parseJsBlock (l : List Char) (line col nesting : Nat) : BlockOut :=
  let startLine := line
  let body := l.drop 2
  let col0 := col + 2
  let o := jsLoop body line col0
  let closed := startsWithQGt o.rest
  let rest2 := if closed then o.rest.drop 2 else o.rest
  let col2 := if closed then o.col + 2 else o.col
  let ts := trimStartL o.buf
  let te := trimEndL o.buf
  let nest1 := if ts.head? = some cbrace then nesting - 1 else nesting
  let level := nest1
  let nest2 := if te.getLast? = some obrace then nest1 + 1 else nest1
  if ts.head? = some '=' then
    let charsToEq := (o.buf.takeWhile (fun c => c ≠ '=')).length
    let wsAfterEq := (((o.buf.dropWhile (fun c => c ≠ '=')).drop 1).takeWhile isRustWhitespace).length
    let colE := col0 + charsToEq + 1 + wsAfterEq
    { block := .expression ⟨startLine, colE, trimL (ts.drop 1), level⟩
      rest := rest2, line := o.line, col := col2, nesting := nest2 }
  else
    { block := .javascript ⟨startLine, col0, o.buf, level⟩
      rest := rest2, line := o.line, col := col2, nesting := nest2 }

/-- The main loop of `Parser::parse`, written with explicit fuel so that the
definition is structurally recursive and kernel-reducible.  Each iteration
consumes at least one character, so fuel equal to the input length is always
sufficient (the claims about `parse` are proved by induction on this fuel). -/
def parseGo : Nat → List Char → Nat → Nat → Nat → List CodeBlock
  | 0, _, _, _, _ => []
  | _ + 1, [], _, _, _ => []
  | fuel + 1, c :: cs, line, col, nesting =>
    if startsWithLT (c :: cs) then
      let o := parseJsBlock (c :: cs) line col nesting
      o.block :: parseGo fuel o.rest o.line o.col o.nesting
    else
      let o := parseHtmlBlock (c :: cs) line col nesting
      o.block :: parseGo fuel o.rest o.line o.col o.nesting

/-- Mirror of `Parser::new` followed by `Parser::parse`: position 0, line 1,
column 1, nesting 0. -/
def parse (s : List Char) : List CodeBlock := parseGo s.length s 1 1 0

/-! ## JS emission (`blocks_to_js`, crates/parser/src/lib.rs) -/

/-- One emitted line of `blocks_to_js`: Javascript content trimmed, Html
content wrapped in `echo!(backtick literal)`, Expression content trimmed and
wrapped in `echo(String(...));`. -/
def blockToJsLine : CodeBlock → List Char
  | .javascript c => trimL c.content
  | .html c => "echo(".data ++ [btick] ++ c.content ++ [btick] ++ ");".data
  | .expression c => "echo(String(".data ++ trimL c.content ++ "));".data

/-- Mirror of `blocks_to_js`: the emitted lines joined with a newline. -/
def blocks_to_js (blocks : List CodeBlock) : List Char :=
  List.intercalate ['\n'] (blocks.map blockToJsLine)

/-! ## Model of the embedded JavaScript engine on the emitted fragment

The repository hands `blocks_to_js` output to an external JavaScript engine.
The model below executes exactly the fragment the generator emits for the
documents used in the claims: `echo` of a template literal, `echo(String(e))`
of an identifier or decimal literal, and sloppy-mode assignment
`ident = number;`.  Template literals are cooked per ECMAScript (escape
sequences are processed at compile time; an unterminated literal is a
compile-time SyntaxError).  Everything else is mapped to `outside`, about
which no theorem asserts anything. -/

/-- Result of cooking one escape sequence inside a template literal. -/
inductive EscRes
  | cooked (c : Char)
  | skip
  | beyond
deriving DecidableEq

/-- ECMAScript template-literal escape cooking for the character after a
backslash: the usual single-character escapes, line continuation for a
newline, identity for any other non-digit character, and `beyond` for the
hex/unicode/octal forms the model does not cover. -/
def cookEscape (e : Char) : EscRes :=
  if e = 'n' then .cooked '\n'
  else if e = 't' then .cooked '\t'
  else if e = 'r' then .cooked '\r'
  else if e = 'b' then .cooked (Char.ofNat 8)
  else if e = 'f' then .cooked (Char.ofNat 12)
  else if e = 'v' then .cooked (Char.ofNat 11)
  else if e = '\n' then .skip
  else if e = 'x' ∨ e = 'u' ∨ e.isDigit ∨ e = '\r' then .beyond
  else .cooked e

/-- Result of scanning a template literal body. -/
inductive TplRes
  | ok (cooked : List Char) (rest : List Char)
  | compileErr
  | outside
deriving DecidableEq

/-- Prepend a cooked character to a successful scan. -/
def TplRes.consChar (c : Char) : TplRes → TplRes
  | .ok s r => .ok (c :: s) r
  | e => e

/-- Scan a template literal body up to its closing backtick, producing the
cooked string.  End of input before the closing backtick is the SyntaxError
for an unterminated template literal; interpolation is outside the model. -/
def scanTpl : List Char → TplRes
  | [] => .compileErr
  | ['\\'] => .compileErr
  | '\\' :: e :: cs =>
    match cookEscape e with
    | .cooked ch => TplRes.consChar ch (scanTpl cs)
    | .skip => scanTpl cs
    | .beyond => .outside
  | c :: cs =>
    if c = btick then .ok [] cs
    else if c = '$' ∧ cs.head? = some obrace then .outside
    else TplRes.consChar c (scanTpl cs)

/-- Expressions of the modelled fragment. -/
inductive MExpr
  | varE (x : String)
  | numE (n : Nat)
deriving DecidableEq

/-- Statements of the modelled fragment. -/
inductive MStmt
  | echoTpl (cooked : List Char)
  | echoStr (e : MExpr)
  | assign (x : String) (n : Nat)
deriving DecidableEq

/-- Result of parsing one statement. -/
inductive StmtRes
  | ok (s : MStmt) (rest : List Char)
  | compileErr
  | outside
deriving DecidableEq

/-- Strip an expected literal from the front of the input. -/
def dropPre : List Char → List Char → Option (List Char)
  | [], l => some l
  | _ :: _, [] => none
  | p :: ps, c :: cs => if c = p then dropPre ps cs else none

/-- Identifier start characters of the modelled fragment. -/
def isIdentStart (c : Char) : Bool := c.isAlpha || c = '_' || c = '$'

/-- Identifier continuation characters of the modelled fragment. -/
def isIdentChar (c : Char) : Bool := isIdentStart c || c.isDigit

/-- Decimal value of a digit string. -/
def natOfDigits (ds : List Char) : Nat :=
  ds.foldl (fun a c => a * 10 + (c.toNat - 48)) 0

/-- Parse one statement of the modelled fragment. -/
def parseStmt (l : List Char) : StmtRes :=
  match dropPre ("echo(".data ++ [btick]) l with
  | some r =>
    match scanTpl r with
    | .ok cooked rest =>
      match dropPre ");".data rest with
      | some rest2 => .ok (.echoTpl cooked) rest2
      | none => .outside
    | .compileErr => .compileErr
    | .outside => .outside
  | none =>
    match dropPre "echo(String(".data l with
    | some r =>
      match r.head? with
      | some c =>
        if isIdentStart c then
          let x := r.takeWhile isIdentChar
          match dropPre "));".data (r.drop x.length) with
          | some rest2 => .ok (.echoStr (.varE (String.mk x))) rest2
          | none => .outside
        else if c.isDigit then
          let ds := r.takeWhile Char.isDigit
          match dropPre "));".data (r.drop ds.length) with
          | some rest2 => .ok (.echoStr (.numE (natOfDigits ds))) rest2
          | none => .outside
        else .outside
      | none => .outside
    | none =>
      let x := l.takeWhile isIdentChar
      match x.head? with
      | some c0 =>
        if isIdentStart c0 then
          match (l.drop x.length).dropWhile (fun c => c = ' ') with
          | '=' :: r2 =>
            let r3 := r2.dropWhile (fun c => c = ' ')
            let ds := r3.takeWhile Char.isDigit
            match ds.head? with
            | some _ =>
              match r3.drop ds.length with
              | ';' :: r4 => .ok (.assign (String.mk x) (natOfDigits ds)) r4
              | _ => .outside
            | none => .outside
          | _ => .outside
        else .outside
      | none => .outside

/-- Result of compiling a whole program of the modelled fragment. -/
inductive ProgRes
  | prog (stmts : List MStmt)
  | compileErr
  | outside
deriving DecidableEq

/-- Fueled statement-sequence parser; newlines separate statements. -/
def parseProgGo : Nat → List Char → ProgRes
  | 0, _ => .outside
  | _ + 1, [] => .prog []
  | fuel + 1, c :: rest =>
    if c = '\n' then parseProgGo fuel rest
    else
      match parseStmt (c :: rest) with
      | .ok s r =>
        match parseProgGo fuel r with
        | .prog ss => .prog (s :: ss)
        | e => e
      | .compileErr => .compileErr
      | .outside => .outside

/-- Compile a program of the modelled fragment (each statement consumes at
least one character, so this fuel always suffices). -/
def parseProgram (l : List Char) : ProgRes := parseProgGo (l.length + 1) l

/-- Set a key in an association list, replacing the first occurrence. -/
def setAssoc {β : Type} : List (String × β) → String → β → List (String × β)
  | [], x, v => [(x, v)]
  | (y, w) :: rest, x, v =>
    if y = x then (y, v) :: rest else (y, w) :: setAssoc rest x v

/-- Look a key up in an association list. -/
def lookupAssoc {β : Type} : List (String × β) → String → Option β
  | [], _ => none
  | (y, w) :: rest, x => if y = x then some w else lookupAssoc rest x

/-- Evaluate an expression of the fragment; reading an undeclared identifier
is a ReferenceError (`none`). -/
def evalME : MExpr → List (String × Nat) → Option Nat
  | .numE n, _ => some n
  | .varE x, env => lookupAssoc env x

/-- Execute the compiled statements: `echo` appends to the output, sloppy
assignment creates or updates a global, a ReferenceError aborts execution
keeping the output echoed so far (`false` marks the uncaught throw). -/
def execStmts : List MStmt → List (String × Nat) → List Char → Bool × List Char
  | [], _, out => (true, out)
  | .echoTpl s :: rest, env, out => execStmts rest env (out ++ s)
  | .echoStr e :: rest, env, out =>
    match evalME e env with
    | some n => execStmts rest env (out ++ (Nat.repr n).data)
    | none => (false, out)
  | .assign x n :: rest, env, out => execStmts rest (setAssoc env x n) out

/-! ## Executor model (crates/executor/src/lib.rs, `Executor::run`) -/

/-- The work items of `Op` handled by the model (`Shutdown` only breaks the
receive loop and is not involved in any claim). -/
inductive ExOp
  | javascript (code : List Char)
  | render (blocks : List CodeBlock) (resource : String)

/-- The trailer the render arm appends when the bulk script fails to
compile (`v8utils::compile_script` error text). -/
def errCompileTrailer : List Char := "\n<!-- ERROR -->\nFailed to compile a script block\n".data

/-- The trailer the render arm appends when running the bulk script fails. -/
def errRunTrailer : List Char := "\n<!-- ERROR -->\nScript execution failed\n".data

/-- One iteration of `Executor::run`, given the current shared output buffer.
The `Op::Javascript` arm makes a fresh context, installs `echo` over the
shared buffer without clearing it, and logs errors without touching the
buffer.  The `Op::Render` arm makes a fresh context, clears the buffer,
installs `echo`, compiles `blocks_to_js` of the request as one script with
the resource name as origin, appends a fixed trailer on compile or run
failure, and replies with a clone of the buffer.  Returns `none` when the
program leaves the modelled JavaScript fragment. -/
def execOp (buffer : List Char) : ExOp → Option (List Char × Option (List Char))
  | .javascript code =>
    match parseProgram code with
    | .prog st =>
      let r := execStmts st [] []
      some (buffer ++ r.2, none)
    | .compileErr => some (buffer, none)
    | .outside => none
  | .render blocks _ =>
    let b0 : List Char := []
    let js := blocks_to_js blocks
    match parseProgram js with
    | .prog st =>
      let r := execStmts st [] []
      let b1 := b0 ++ r.2
      let b2 := if r.1 then b1 else b1 ++ errRunTrailer
      some (b2, some b2)
    | .compileErr =>
      let b1 := b0 ++ errCompileTrailer
      some (b1, some b1)
    | .outside => none

/-- The executor receive loop over a list of work items, threading the
shared buffer and collecting the reply (if any) of each item. -/
def execOps (buffer : List Char) : List ExOp → Option (List Char × List (Option (List Char)))
  | [] => some (buffer, [])
  | op :: rest =>
    match execOp buffer op with
    | none => none
    | some (b2, r) =>
      match execOps b2 rest with
      | none => none
      | some (bf, rs) => some (bf, r :: rs)

/-! ## Native extension call bridge (crates/engine/src/extensions.rs) -/

/-- Mirror of the C ABI struct `JhpBuf`; a pointer is modelled as a `Nat`
with `0` for null. -/
structure JhpBuf where
  ptr : Nat
  len : Nat
deriving DecidableEq, Repr

/-- Mirror of the C ABI struct `JhpCallResult`. -/
structure JhpCallResult where
  ok : Bool
  data : JhpBuf
  code : Int
deriving DecidableEq, Repr

/-- Observable events the bound-function callback performs after the native
`call` returns. -/
inductive ExtEvent
  | jsonParse (b : JhpBuf)
  | freeBuf (b : JhpBuf)
deriving DecidableEq, Repr

/-- From `make_v8_func_from_c_v1`: after the native call returns `res`, the
callback parses `res.data` as JSON only when `ok` is set and the buffer is
non-null and non-empty, and then frees the buffer when it is non-null and
non-empty (independently of `ok`). -/
def extCallEvents (res : JhpCallResult) : List ExtEvent :=
  (if res.ok ∧ res.data.ptr ≠ 0 ∧ 0 < res.data.len then [ExtEvent.jsonParse res.data] else [])
    ++ (if res.data.ptr ≠ 0 ∧ 0 < res.data.len then [ExtEvent.freeBuf res.data] else [])

/-- The buffers passed to the registered `free_fn` during one bound call. -/
def freeInvocations (res : JhpCallResult) : List JhpBuf :=
  (extCallEvents res).filterMap (fun e =>
    match e with
    | .freeBuf b => some b
    | _ => none)

/-! ## Lazily loaded module installers (crates/engine/src/extensions.rs) -/

/-- A value stored on a script-context global in the installer model: either
a module object carrying its native functions (a function is identified by
its name and the native function pointer it wraps), or any other value. -/
inductive GVal
  | moduleObj (funcs : List (String × Nat))
  | raw (n : Nat)
deriving DecidableEq, Repr

/-- The observable global object of one script context. -/
abbrev GState := List (String × GVal)

/-- The data captured by `load_module_installer` for one module: the
PascalCase object name, the function table, and the effect of each JS
bootstrap script on the global (a bootstrap is arbitrary JavaScript, so its
effect is modelled as an arbitrary state transformer). -/
structure ModuleDef where
  objName : String
  funcs : List (String × Nat)
  bootstraps : List (GState → GState)

/-- The installer closure built by `load_module_installer`: reuse the module
object if the global already holds one (else start from an empty object),
attach every native function as a property, store the object back on the
global, then execute each bootstrap script. -/
def installModule (m : ModuleDef) (g : GState) : GState :=
  let base : List (String × Nat) :=
    match lookupAssoc g m.objName with
    | some (.moduleObj fs) => fs
    | _ => []
  let fs := m.funcs.foldl (fun acc f => setAssoc acc f.1 f.2) base
  let g1 := setAssoc g m.objName (.moduleObj fs)
  m.bootstraps.foldl (fun s boot => boot s) g1

/-- Observable equality of two global values: raw values compare by value,
module objects by the result of every property lookup (a fresh function
object wrapping the same native pointer is observably the same binding). -/
def GValObsEq : GVal → GVal → Prop
  | .raw n, .raw m => n = m
  | .moduleObj fs, .moduleObj gs => ∀ k, lookupAssoc fs k = lookupAssoc gs k
  | _, _ => False

/-- Observable equality of two context globals: every property lookup agrees
up to `GValObsEq`. -/
def GStateObsEq (g h : GState) : Prop :=
  ∀ k, match lookupAssoc g k, lookupAssoc h k with
    | none, none => True
    | some v, some w => GValObsEq v w
    | _, _ => False

/-! ## The include binding (crates/engine/src/bindings.rs) -/

/-- Environment for one `include(path)` call on a path without an extension:
the outcome of `ModuleRegistry::ensure_loaded(path)`, the registry object
name for the key after that call, and the readable files (the model of
`fs::read_to_string`). -/
structure IncludeEnv where
  loadResult : Except String Unit
  objName : Option String
  readFile : String → Option String

/-- Outcome of an `include(path)` call. -/
inductive IncludeOutcome
  | moduleObject (name : String)
  | ranFile (code : String)
  | threw (msg : String)
deriving DecidableEq, Repr

/-- Whether the include call threw a JavaScript error. -/
def IncludeOutcome.isThrown : IncludeOutcome → Bool
  | .threw _ => true
  | _ => false

/-- The error message thrown when neither a module nor a file resolves
(`include('<path>') read error: not found as module or file`). -/
def includeReadErrMsg (path : String) : String :=
  "include(" ++ String.mk [squoteChar] ++ path ++ String.mk [squoteChar]
    ++ ") read error: not found as module or file"

/-- The `include` callback for a path without a file extension, from
`IncludeBinding::install`: try `ensure_loaded` and swallow its error (the
`Err(_e)` arm falls through to file resolution); return the module object
when the registry knows the key; otherwise try the path itself, the path
under the document root, and the three `.js` shim candidates in order; run
the first readable file; throw the generic read error only when everything
missed.  `PathBuf::join` is modelled as separator concatenation. -/
def includeNoExt (env : IncludeEnv) (docRoot extDir path : String) : IncludeOutcome :=
  let _ := env.loadResult
  match env.objName with
  | some obj => .moduleObject obj
  | none =>
    let c0 := env.readFile path
    let c1 := match c0 with
      | some c => some c
      | none => env.readFile (docRoot ++ "/" ++ path)
    let c2 := match c1 with
      | some c => some c
      | none => env.readFile (docRoot ++ "/" ++ path ++ ".js")
    let c3 := match c2 with
      | some c => some c
      | none => env.readFile (extDir ++ "/" ++ path ++ "/" ++ path ++ ".js")
    let c4 := match c3 with
      | some c => some c
      | none => env.readFile (extDir ++ "/" ++ path ++ ".js")
    match c4 with
    | some code => .ranFile code
    | none => .threw (includeReadErrMsg path)

/-! ## Executor pool construction (crates/engine/src/engine.rs, main.rs) -/

/-- From `ExecutorPool::new`: each executor receives its own bounded channel
created as `mpsc::channel::<Op>(nb)`, so the mailbox capacity equals the
executor count. -/
def executorMailboxCapacity (nb : Nat) : Nat := nb

/-- From `main`: the engine is constructed with 4 executors. -/
def mainNbExecutors : Nat := 4

/-! ## Helper lemmas -/

/-- Association lookup after a set: the set key reads back the new value,
every other key is unchanged. -/
theorem lookup_setAssoc {β : Type} (l : List (String × β)) (k : String) (v : β) (j : String) :
    lookupAssoc (setAssoc l k v) j = if k = j then some v else lookupAssoc l j := by
  induction l with
  | nil => simp [setAssoc, lookupAssoc]
  | cons p rest ih =>
    obtain ⟨y, w⟩ := p
    by_cases hyk : y = k
    · subst hyk
      by_cases hyj : y = j <;> simp [setAssoc, lookupAssoc, hyj]
    · by_cases hyj : y = j
      · subst hyj
        have hkj : ¬ y = k := hyk
        have : ¬ k = y := fun h => hkj h.symm
        simp [setAssoc, lookupAssoc, hyk, this]
      · simp [setAssoc, lookupAssoc, hyk, hyj, ih]

/-- The value the last matching entry of a function table assigns to a key. -/
def lastVal : List (String × Nat) → String → Option Nat
  | [], _ => none
  | f :: rest, j =>
    match lastVal rest j with
    | some v => some v
    | none => if f.1 = j then some f.2 else none

/-- Folding property assignments over a base object: a key assigned by the
table reads its last assigned value, any other key reads from the base. -/
theorem lookup_foldl_set (funcs : List (String × Nat)) (b : List (String × Nat)) (j : String) :
    lookupAssoc (funcs.foldl (fun acc f => setAssoc acc f.1 f.2) b) j =
      match lastVal funcs j with
      | some v => some v
      | none => lookupAssoc b j := by
  induction funcs generalizing b with
  | nil => simp [lastVal]
  | cons f rest ih =>
    simp only [List.foldl_cons, ih, lastVal]
    cases h : lastVal rest j with
    | some v => simp
    | none =>
      by_cases hf : f.1 = j <;> simp [lookup_setAssoc, hf]

/-- Observable equality of global values is reflexive. -/
theorem GValObsEq_refl (v : GVal) : GValObsEq v v := by
  cases v <;> simp [GValObsEq]

/-- The parse loop emits no block on empty input, whatever the fuel. -/
theorem parseGo_nil (fuel line col nesting : Nat) : parseGo fuel [] line col nesting = [] := by
  cases fuel <;> rfl

/-- Unfolding the parse loop on a script-block opening. -/
theorem parseGo_succ_js (fuel : Nat) (l : List Char) (line col nesting : Nat)
    (hlt : startsWithLT l = true) :
    parseGo (fuel + 1) l line col nesting =
      (parseJsBlock l line col nesting).block ::
        parseGo fuel (parseJsBlock l line col nesting).rest
          (parseJsBlock l line col nesting).line (parseJsBlock l line col nesting).col
          (parseJsBlock l line col nesting).nesting := by
  cases l with
  | nil => simp [startsWithLT] at hlt
  | cons c cs => simp [parseGo, hlt]

/-- Unfolding the parse loop on an HTML opening. -/
theorem parseGo_succ_html (fuel : Nat) (l : List Char) (line col nesting : Nat)
    (hne : l ≠ []) (hlt : startsWithLT l = false) :
    parseGo (fuel + 1) l line col nesting =
      (parseHtmlBlock l line col nesting).block ::
        parseGo fuel (parseHtmlBlock l line col nesting).rest
          (parseHtmlBlock l line col nesting).line (parseHtmlBlock l line col nesting).col
          (parseHtmlBlock l line col nesting).nesting := by
  cases l with
  | nil => exact absurd rfl hne
  | cons c cs => simp [parseGo, hlt]

/-- A list satisfying the close-fence lookahead starts with the fence. -/
theorem startsWithQGt_shape : ∀ {l : List Char}, startsWithQGt l = true →
    ∃ r, l = '?' :: '>' :: r := by
  intro l h
  cases l with
  | nil => simp [startsWithQGt] at h
  | cons a t =>
    cases t with
    | nil => simp [startsWithQGt] at h
    | cons b r =>
      simp [startsWithQGt] at h
      exact ⟨r, by rw [h.1, h.2]⟩

/-- A list satisfying the open-fence lookahead starts with the fence. -/
theorem startsWithLT_shape : ∀ {l : List Char}, startsWithLT l = true →
    ∃ r, l = '<' :: '?' :: r := by
  intro l h
  cases l with
  | nil => simp [startsWithLT] at h
  | cons a t =>
    cases t with
    | nil => simp [startsWithLT] at h
    | cons b r =>
      simp [startsWithLT] at h
      exact ⟨r, by rw [h.1, h.2]⟩

/-- The HTML loop stops immediately at the open fence. -/
theorem htmlLoop_cons_stop (c : Char) (cs : List Char) (line col : Nat)
    (h : startsWithLT (c :: cs) = true) :
    htmlLoop (c :: cs) line col = ⟨[], c :: cs, line, col⟩ := by
  simp [htmlLoop, h]

/-- The HTML loop consumes and escapes one character otherwise. -/
theorem htmlLoop_cons_go (c : Char) (cs : List Char) (line col : Nat)
    (h : startsWithLT (c :: cs) = false) :
    htmlLoop (c :: cs) line col =
      ⟨escapeChar c ++ (htmlLoop cs (stepPos c line col).1 (stepPos c line col).2).buf,
       (htmlLoop cs (stepPos c line col).1 (stepPos c line col).2).rest,
       (htmlLoop cs (stepPos c line col).1 (stepPos c line col).2).line,
       (htmlLoop cs (stepPos c line col).1 (stepPos c line col).2).col⟩ := by
  simp [htmlLoop, h]

/-- The script-block loop stops immediately at the close fence. -/
theorem jsLoop_cons_stop (c : Char) (cs : List Char) (line col : Nat)
    (h : startsWithQGt (c :: cs) = true) :
    jsLoop (c :: cs) line col = ⟨[], c :: cs, line, col⟩ := by
  simp [jsLoop, h]

/-- The script-block loop consumes one raw character otherwise. -/
theorem jsLoop_cons_go (c : Char) (cs : List Char) (line col : Nat)
    (h : startsWithQGt (c :: cs) = false) :
    jsLoop (c :: cs) line col =
      ⟨c :: (jsLoop cs (stepPos c line col).1 (stepPos c line col).2).buf,
       (jsLoop cs (stepPos c line col).1 (stepPos c line col).2).rest,
       (jsLoop cs (stepPos c line col).1 (stepPos c line col).2).line,
       (jsLoop cs (stepPos c line col).1 (stepPos c line col).2).col⟩ := by
  simp [jsLoop, h]

/-- The script-block loop consumes a prefix raw: its buffer followed by its
rest is the input, and it stops only at end of input or at the close fence. -/
theorem jsLoop_spec : ∀ (l : List Char) (line col : Nat),
    (jsLoop l line col).buf ++ (jsLoop l line col).rest = l ∧
    ((jsLoop l line col).rest = [] ∨ startsWithQGt (jsLoop l line col).rest = true) := by
  intro l
  induction l with
  | nil => intro line col; exact ⟨rfl, Or.inl rfl⟩
  | cons c cs ih =>
    intro line col
    cases hq : startsWithQGt (c :: cs) with
    | true =>
      rw [jsLoop_cons_stop c cs line col hq]
      exact ⟨rfl, Or.inr hq⟩
    | false =>
      obtain ⟨h1, h2⟩ := ih (stepPos c line col).1 (stepPos c line col).2
      rw [jsLoop_cons_go c cs line col hq]
      exact ⟨by rw [List.cons_append, h1], h2⟩

/-- The HTML loop consumes a prefix: some prefix of the input is consumed,
the buffer is its escape, the loop stops only at end of input or at the open
fence, and the prefix is non-empty whenever the loop makes progress. -/
theorem htmlLoop_spec : ∀ (l : List Char) (line col : Nat),
    ∃ pre : List Char,
      pre ++ (htmlLoop l line col).rest = l ∧
      (htmlLoop l line col).buf = escapeL pre ∧
      ((htmlLoop l line col).rest = [] ∨ startsWithLT (htmlLoop l line col).rest = true) ∧
      (l ≠ [] → startsWithLT l = false → pre ≠ []) := by
  intro l
  induction l with
  | nil =>
    intro line col
    exact ⟨[], rfl, by simp [htmlLoop, escapeL], Or.inl rfl, fun h _ => absurd rfl h⟩
  | cons c cs ih =>
    intro line col
    cases hlt : startsWithLT (c :: cs) with
    | true =>
      rw [htmlLoop_cons_stop c cs line col hlt]
      refine ⟨[], rfl, by simp [escapeL], Or.inr hlt, ?_⟩
      intro _ hf
      exact Bool.noConfusion hf
    | false =>
      obtain ⟨pre, h1, h2, h3, _⟩ := ih (stepPos c line col).1 (stepPos c line col).2
      rw [htmlLoop_cons_go c cs line col hlt]
      refine ⟨c :: pre, ?_, ?_, h3, ?_⟩
      · rw [List.cons_append, h1]
      · show escapeChar c ++ _ = escapeL (c :: pre)
        rw [h2]
        simp [escapeL]
      · intro _ _
        exact List.cons_ne_nil c pre

/-- The module object the installer starts from: the function list of an
existing module object on the global, else empty. -/
def baseOf (g : GState) (key : String) : List (String × Nat) :=
  match lookupAssoc g key with
  | some (.moduleObj fs) => fs
  | _ => []

/-- Attaching a function table to a module object property by property. -/
def applyFuncs (funcs : List (String × Nat)) (b : List (String × Nat)) : List (String × Nat) :=
  funcs.foldl (fun acc f => setAssoc acc f.1 f.2) b

/-- With no bootstrap scripts, the installer is exactly one global property
update. -/
theorem installModule_no_boot (m : ModuleDef) (hb : m.bootstraps = []) (g : GState) :
    installModule m g
      = setAssoc g m.objName (.moduleObj (applyFuncs m.funcs (baseOf g m.objName))) := by
  simp [installModule, hb, applyFuncs, baseOf]

/-- Reading the starting function list back from a freshly stored module
object returns that list. -/
theorem baseOf_setAssoc_self (g : GState) (key : String) (fs : List (String × Nat)) :
    baseOf (setAssoc g key (.moduleObj fs)) key = fs := by
  simp [baseOf, lookup_setAssoc]

/-- Attaching the same function table twice changes no property lookup. -/
theorem lookup_applyFuncs_twice (funcs b : List (String × Nat)) (j : String) :
    lookupAssoc (applyFuncs funcs (applyFuncs funcs b)) j
      = lookupAssoc (applyFuncs funcs b) j := by
  unfold applyFuncs
  rw [lookup_foldl_set, lookup_foldl_set]
  cases h : lastVal funcs j <;> simp

/-- Dropping the head of a fence-free list keeps it fence-free. -/
theorem hasQGt_cons {c : Char} {l : List Char} (h : hasQGt (c :: l) = false) :
    hasQGt l = false := by
  cases l with
  | nil => rfl
  | cons b rest =>
    by_cases hcb : c = '?' ∧ b = '>'
    · simp [hasQGt, hcb] at h
    · simpa [hasQGt, hcb] using h

/-- A fence-free list does not begin with the close fence. -/
theorem hasQGt_head {c b : Char} {l : List Char} (h : hasQGt (c :: b :: l) = false) :
    ¬ (c = '?' ∧ b = '>') := by
  intro hcb
  simp [hasQGt, hcb] at h

/-- On a fence-free body followed by the close fence, the script loop
consumes exactly the body and stops exactly at the fence. -/
theorem jsLoop_exact (B : List Char) :
    ∀ (line col : Nat) (r : List Char), hasQGt B = false →
      (jsLoop (B ++ '?' :: '>' :: r) line col).buf = B ∧
      (jsLoop (B ++ '?' :: '>' :: r) line col).rest = '?' :: '>' :: r := by
  induction B with
  | nil =>
    intro line col r _
    rw [List.nil_append, jsLoop_cons_stop '?' ('>' :: r) line col (by simp [startsWithQGt])]
    exact ⟨rfl, rfl⟩
  | cons c B ih =>
    intro line col r h
    have hq : startsWithQGt (c :: (B ++ '?' :: '>' :: r)) = false := by
      cases B with
      | nil => simp [startsWithQGt]
      | cons b B2 =>
        have hne := hasQGt_head h
        simp only [List.cons_append, startsWithQGt]
        simp [hne]
    have hrec := ih (stepPos c line col).1 (stepPos c line col).2 r (hasQGt_cons h)
    rw [List.cons_append, jsLoop_cons_go c (B ++ '?' :: '>' :: r) line col hq]
    exact ⟨by rw [hrec.1], hrec.2⟩

/-- Projections of `parseJsBlock` on a fenced input, in terms of the script
loop on the body. -/
theorem parseJsBlock_proj (t : List Char) (line col nesting : Nat) :
    (parseJsBlock ('<' :: '?' :: t) line col nesting).rest
        = (if startsWithQGt (jsLoop t line (col + 2)).rest
           then (jsLoop t line (col + 2)).rest.drop 2 else (jsLoop t line (col + 2)).rest) ∧
    (parseJsBlock ('<' :: '?' :: t) line col nesting).block
        = (if (trimStartL (jsLoop t line (col + 2)).buf).head? = some '=' then
            CodeBlock.expression ⟨line,
              col + 2 + ((jsLoop t line (col + 2)).buf.takeWhile (fun c => c ≠ '=')).length + 1
                + ((((jsLoop t line (col + 2)).buf.dropWhile (fun c => c ≠ '=')).drop 1).takeWhile
                    isRustWhitespace).length,
              trimL ((trimStartL (jsLoop t line (col + 2)).buf).drop 1),
              if (trimStartL (jsLoop t line (col + 2)).buf).head? = some cbrace
                then nesting - 1 else nesting⟩
          else
            CodeBlock.javascript ⟨line, col + 2, (jsLoop t line (col + 2)).buf,
              if (trimStartL (jsLoop t line (col + 2)).buf).head? = some cbrace
                then nesting - 1 else nesting⟩) := by
  constructor
  · simp only [parseJsBlock, List.drop_succ_cons, List.drop_zero]
    split <;> rfl
  · simp only [parseJsBlock, List.drop_succ_cons, List.drop_zero]
    split <;> rfl

/-- Correspondence between one raw source segment and the block parsed from
it.  An Html block holds the HTML-escape of its raw segment.  A script-mode
block sits between the open fence and either the close fence or end of
input; a Javascript block holds the raw body verbatim, an Expression block
holds the body after removing leading whitespace and the equals sign and
trimming. -/
def SegMatches (raw : List Char) : CodeBlock → Prop
  | .html c => c.content = escapeL raw
  | .javascript c =>
      raw = '<' :: '?' :: (c.content ++ ['?', '>']) ∨ raw = '<' :: '?' :: c.content
  | .expression c => ∃ body : List Char,
      (raw = '<' :: '?' :: (body ++ ['?', '>']) ∨ raw = '<' :: '?' :: body) ∧
      (trimStartL body).head? = some '=' ∧
      c.content = trimL ((trimStartL body).drop 1)

/-- Parsing one script block consumes a raw segment matching the produced
block, and leaves a rest no longer than the post-fence input. -/
theorem parseJsBlock_seg (t : List Char) (line col nesting : Nat) :
    ∃ raw : List Char,
      raw ++ (parseJsBlock ('<' :: '?' :: t) line col nesting).rest = '<' :: '?' :: t ∧
      SegMatches raw (parseJsBlock ('<' :: '?' :: t) line col nesting).block ∧
      (parseJsBlock ('<' :: '?' :: t) line col nesting).rest.length ≤ t.length := by
  obtain ⟨hap, hstop⟩ := jsLoop_spec t line (col + 2)
  obtain ⟨hrest, hblock⟩ := parseJsBlock_proj t line col nesting
  rcases hstop with h0 | h1
  · have hr : (parseJsBlock ('<' :: '?' :: t) line col nesting).rest = [] := by
      rw [hrest, h0]
      simp [startsWithQGt]
    have hbt : (jsLoop t line (col + 2)).buf = t := by
      conv_rhs => rw [← hap]
      rw [h0, List.append_nil]
    refine ⟨'<' :: '?' :: (jsLoop t line (col + 2)).buf, ?_, ?_, ?_⟩
    · rw [hr, List.append_nil, hbt]
    · rw [hblock]
      by_cases hts : (trimStartL (jsLoop t line (col + 2)).buf).head? = some '='
      · rw [if_pos hts]
        exact ⟨(jsLoop t line (col + 2)).buf, Or.inr rfl, hts, rfl⟩
      · rw [if_neg hts]
        exact Or.inr rfl
    · rw [hr]
      exact Nat.zero_le _
  · obtain ⟨r2, hr2⟩ := startsWithQGt_shape h1
    have hr : (parseJsBlock ('<' :: '?' :: t) line col nesting).rest = r2 := by
      rw [hrest, if_pos h1, hr2]
      rfl
    have hbt : (jsLoop t line (col + 2)).buf ++ '?' :: '>' :: r2 = t := by
      rw [← hr2, hap]
    refine ⟨'<' :: '?' :: ((jsLoop t line (col + 2)).buf ++ ['?', '>']), ?_, ?_, ?_⟩
    · rw [hr]
      simp only [List.cons_append, List.append_assoc]
      rw [List.nil_append, hbt]
    · rw [hblock]
      by_cases hts : (trimStartL (jsLoop t line (col + 2)).buf).head? = some '='
      · rw [if_pos hts]
        exact ⟨(jsLoop t line (col + 2)).buf, Or.inl rfl, hts, rfl⟩
      · rw [if_neg hts]
        exact Or.inl rfl
    · rw [hr]
      have hlen := congrArg List.length hbt
      simp [List.length_append] at hlen
      omega

/-- The fueled parse loop partitions its input into raw segments matching
the emitted blocks, provided the fuel covers the input length. -/
theorem parseGo_segments : ∀ (fuel : Nat) (l : List Char) (line col nesting : Nat),
    l.length ≤ fuel →
    ∃ raws : List (List Char),
      raws.flatten = l ∧ List.Forall₂ SegMatches raws (parseGo fuel l line col nesting) := by
  intro fuel
  induction fuel with
  | zero =>
    intro l line col nesting h
    have hl : l = [] := List.length_eq_zero.mp (Nat.le_zero.mp h)
    subst hl
    exact ⟨[], rfl, by rw [parseGo_nil]; exact List.Forall₂.nil⟩
  | succ fuel ih =>
    intro l line col nesting hlen
    cases l with
    | nil => exact ⟨[], rfl, by rw [parseGo_nil]; exact List.Forall₂.nil⟩
    | cons c cs =>
      cases hlt : startsWithLT (c :: cs) with
      | true =>
        obtain ⟨t, ht⟩ := startsWithLT_shape hlt
        have hlt2 : startsWithLT ('<' :: '?' :: t) = true := by rw [← ht]; exact hlt
        rw [ht] at hlen ⊢
        obtain ⟨raw, hraw, hmatch, hle⟩ := parseJsBlock_seg t line col nesting
        rw [parseGo_succ_js fuel ('<' :: '?' :: t) line col nesting hlt2]
        have hrle : (parseJsBlock ('<' :: '?' :: t) line col nesting).rest.length ≤ fuel := by
          simp only [List.length_cons] at hlen
          omega
        obtain ⟨raws2, hfl2, hfa2⟩ := ih (parseJsBlock ('<' :: '?' :: t) line col nesting).rest
          (parseJsBlock ('<' :: '?' :: t) line col nesting).line
          (parseJsBlock ('<' :: '?' :: t) line col nesting).col
          (parseJsBlock ('<' :: '?' :: t) line col nesting).nesting hrle
        refine ⟨raw :: raws2, ?_, List.Forall₂.cons hmatch hfa2⟩
        simp only [List.flatten_cons]
        rw [hfl2, hraw]
      | false =>
        obtain ⟨pre, h1, h2, _, h4⟩ := htmlLoop_spec (c :: cs) line col
        have hpre : pre ≠ [] := h4 (List.cons_ne_nil c cs) hlt
        rw [parseGo_succ_html fuel (c :: cs) line col nesting (List.cons_ne_nil c cs) hlt]
        have hrest : (parseHtmlBlock (c :: cs) line col nesting).rest
            = (htmlLoop (c :: cs) line col).rest := rfl
        have hblock : (parseHtmlBlock (c :: cs) line col nesting).block
            = .html ⟨line, col, (htmlLoop (c :: cs) line col).buf, nesting⟩ := rfl
        have hrle : (parseHtmlBlock (c :: cs) line col nesting).rest.length ≤ fuel := by
          rw [hrest]
          have hlen2 := congrArg List.length h1
          simp only [List.length_append, List.length_cons] at hlen2
          have hp1 : 1 ≤ pre.length := by
            cases hp : pre with
            | nil => exact absurd hp hpre
            | cons a b => simp [hp]
          simp only [List.length_cons] at hlen
          omega
        obtain ⟨raws2, hfl2, hfa2⟩ := ih (parseHtmlBlock (c :: cs) line col nesting).rest
          (parseHtmlBlock (c :: cs) line col nesting).line
          (parseHtmlBlock (c :: cs) line col nesting).col
          (parseHtmlBlock (c :: cs) line col nesting).nesting hrle
        refine ⟨pre :: raws2, ?_, ?_⟩
        · simp only [List.flatten_cons]
          rw [hfl2, hrest, h1]
        · exact List.Forall₂.cons (by rw [hblock]; exact h2) hfa2

end Jhp

namespace Jhp

/-! ## Claim theorems -/

/-- C2: parser totality.  For every input, the parser partitions the input
into consecutive raw segments, one per emitted block in order, covering
every character exactly once; each Html block holds exactly the
HTML-escaping substitution of its segment, and each script-mode block sits
between the original open fence and the original close fence (or end of
input when the fence is absent), the Javascript content being the fenced
body verbatim.  Concatenating the segments — Html contents with the
escaping undone and the fences restored around script bodies — therefore
reconstructs the input. -/
theorem c2_parser_totality : ∀ s : List Char,
    ∃ raws : List (List Char),
      raws.flatten = s ∧ List.Forall₂ SegMatches raws (parse s) :=
  fun s => parseGo_segments s.length s 1 1 0 (Nat.le_refl _)

/-- C1 (code_bug evaluation): the render pipeline routes Html content
through a JavaScript template literal, so content is cooked rather than
copied verbatim.  For the document `a\nb` (four characters, with a literal
backslash) the parser yields one Html block whose content is those four
characters, but the rendered body is the three characters `a`, newline, `b`:
the body does not contain the Html content verbatim. -/
theorem c1_html_content_not_verbatim :
    parse "a\\nb".data = [CodeBlock.html ⟨1, 1, "a\\nb".data, 0⟩] ∧
    execOp [] (.render (parse "a\\nb".data) "t.jhp")
      = some ("a\nb".data, some "a\nb".data) ∧
    ("a\nb".data : List Char) ≠ "a\\nb".data :=
  ⟨by decide, by decide, by decide⟩

/-- C4 counterexample: for the document `x\` the bulk script fails to
compile (the backslash escapes the closing backtick of the emitted template
literal), and the executor delivers the fixed trailer
`\n<!-- ERROR -->\nFailed to compile a script block\n`, which contains no
colon at all and therefore is not of the claimed
`<resource>:<line>:<col>` diagnostic form. -/
theorem c4_error_trailer_counterexample :
    execOp [] (.render (parse "x\\".data) "x.jhp")
      = some (errCompileTrailer, some errCompileTrailer) ∧
    ':' ∉ errCompileTrailer :=
  ⟨by decide, by decide⟩

/-- C4 amended: on failure of the single bulk-compiled program the executor
appends a fixed trailer to the buffer — `Script execution failed` after a
runtime throw (keeping the output echoed before the throw), or the compile
error text when compilation fails — and the buffer plus trailer is still
delivered on the reply channel. -/
theorem c4_failure_appends_fixed_trailer :
    ∀ (blocks : List CodeBlock) (res : String) (st : List MStmt) (out : List Char),
      (parseProgram (blocks_to_js blocks) = .prog st →
        execStmts st [] [] = (false, out) →
        execOp [] (ExOp.render blocks res)
          = some (out ++ errRunTrailer, some (out ++ errRunTrailer))) ∧
      (parseProgram (blocks_to_js blocks) = .compileErr →
        execOp [] (ExOp.render blocks res)
          = some (errCompileTrailer, some errCompileTrailer)) := by
  intro blocks res st out
  constructor
  · intro h1 h2
    simp [execOp, h1, h2]
  · intro h1
    simp [execOp, h1]

/-- C4 witness: the document `<?= y ?>` throws a ReferenceError (reading the
undeclared `y`), and the reply is exactly the fixed runtime trailer. -/
theorem c4_witness :
    execOp [] (ExOp.render (parse "<?= y ?>".data) "y.jhp")
      = some (errRunTrailer, some errRunTrailer) :=
  (c4_failure_appends_fixed_trailer (parse "<?= y ?>".data) "y.jhp"
    [MStmt.echoStr (MExpr.varE "y")] []).1 (by decide) (by decide)

/-- C3: classification of a script-mode block.  For a body B free of the
close fence, parsing the fenced document yields exactly one block.  With T
the body after removing leading whitespace: if T begins with an equals sign
the block is an Expression whose content is T with that sign removed and
then trimmed of surrounding whitespace; otherwise it is a Script
(Javascript) block whose content is B verbatim, leading and interior
whitespace included. -/
theorem c3_expression_vs_script :
    ∀ B : List Char, hasQGt B = false →
      (((trimStartL B).head? = some '=') →
        ∃ ln cn lv, parse ('<' :: '?' :: (B ++ ['?', '>']))
          = [CodeBlock.expression ⟨ln, cn, trimL ((trimStartL B).drop 1), lv⟩]) ∧
      (¬ ((trimStartL B).head? = some '=') →
        ∃ ln cn lv, parse ('<' :: '?' :: (B ++ ['?', '>']))
          = [CodeBlock.javascript ⟨ln, cn, B, lv⟩]) := by
  intro B h
  have hex := jsLoop_exact B 1 (1 + 2) [] h
  have hproj := parseJsBlock_proj (B ++ ['?', '>']) 1 1 0
  have hrest : (parseJsBlock ('<' :: '?' :: (B ++ ['?', '>'])) 1 1 0).rest = [] := by
    rw [hproj.1, hex.2]
    simp [startsWithQGt]
  have hparse : parse ('<' :: '?' :: (B ++ ['?', '>']))
      = [(parseJsBlock ('<' :: '?' :: (B ++ ['?', '>'])) 1 1 0).block] := by
    simp only [parse]
    rw [show ('<' :: '?' :: (B ++ ['?', '>'])).length = ((B ++ ['?', '>']).length + 1) + 1 from rfl]
    rw [parseGo_succ_js _ _ _ _ _ (by simp [startsWithLT])]
    rw [hrest, parseGo_nil]
  constructor
  · intro hts
    refine ⟨1,
      1 + 2 + (List.takeWhile (fun c => c ≠ '=') B).length + 1
        + (List.takeWhile isRustWhitespace (List.drop 1 (List.dropWhile (fun c => c ≠ '=') B))).length,
      (if (trimStartL B).head? = some cbrace then 0 - 1 else 0), ?_⟩
    rw [hparse, hproj.2, hex.1, if_pos hts]
  · intro hts
    refine ⟨1, 1 + 2, (if (trimStartL B).head? = some cbrace then 0 - 1 else 0), ?_⟩
    rw [hparse, hproj.2, hex.1, if_neg hts]

/-- C3 witness: the body `= 1 + 2 ` classifies as an Expression block with
content `1 + 2`. -/
theorem c3_witness :
    hasQGt "= 1 + 2 ".data = false ∧
    ∃ ln cn lv, parse ('<' :: '?' :: ("= 1 + 2 ".data ++ ['?', '>']))
      = [CodeBlock.expression ⟨ln, cn, "1 + 2".data, lv⟩] := by
  constructor
  · decide
  · have heq : trimL ((trimStartL "= 1 + 2 ".data).drop 1) = "1 + 2".data := by decide
    rw [← heq]
    exact (c3_expression_vs_script "= 1 + 2 ".data (by decide)).1 (by decide)

/-- C5 counterexample environment: loading the native module failed (the
registration symbol is missing), the registry therefore has no object name
for the key, and a JavaScript shim file exists under the document root. -/
def c5Env : IncludeEnv :=
  ⟨.error "Missing jhp_register_v1 in ext/libjhp_ext_demo.so", none,
    fun p => if p = "www/demo.js" then some "shim" else none⟩

/-- C5 counterexample: an extension load failure is not surfaced as a
thrown error — `include` swallows it and runs the fallback shim file. -/
theorem c5_swallowed_load_error_counterexample :
    c5Env.loadResult = .error "Missing jhp_register_v1 in ext/libjhp_ext_demo.so" ∧
    includeNoExt c5Env "www" "ext" "demo" = .ranFile "shim" ∧
    (includeNoExt c5Env "www" "ext" "demo").isThrown = false :=
  ⟨rfl, by decide, by decide⟩

/-- C5 amended: `include` on an extensionless name throws only when the
registry has no object for the key and no candidate file is readable, and
then it throws the generic read error, which does not carry the extension
load failure (whatever `ensure_loaded` reported). -/
theorem c5_include_throws_only_generic_read_error :
    ∀ (env : IncludeEnv) (docRoot extDir path : String),
      env.objName = none →
      (∀ f, env.readFile f = none) →
      includeNoExt env docRoot extDir path = .threw (includeReadErrMsg path) := by
  intro env dr ed p h1 h2
  simp [includeNoExt, h1, h2]

/-- C5 witness: with an ABI-mismatch load failure and no readable file,
`include` throws the generic read error. -/
theorem c5_witness :
    includeNoExt ⟨.error "Unsupported extension ABI or empty function table", none, fun _ => none⟩
      "www" "ext" "demo" = .threw (includeReadErrMsg "demo") :=
  c5_include_throws_only_generic_read_error _ "www" "ext" "demo" rfl (fun _ => rfl)

/-- The free invocations of one bound call, as a single conditional. -/
theorem freeInvocations_eq (res : JhpCallResult) :
    freeInvocations res =
      if res.data.ptr ≠ 0 ∧ 0 < res.data.len then [res.data] else [] := by
  by_cases hok : res.ok <;> by_cases h : res.data.ptr ≠ 0 ∧ 0 < res.data.len <;>
    simp [freeInvocations, extCallEvents, hok, h]

/-- C6 counterexample: a successful call whose result buffer has length 0
(with a non-null pointer) is never passed to the free function — zero
invocations instead of the claimed exactly one. -/
theorem c6_zero_len_not_freed_counterexample :
    freeInvocations ⟨true, ⟨1, 0⟩, 0⟩ = [] ∧
    ([] : List JhpBuf) ≠ [(⟨1, 0⟩ : JhpBuf)] :=
  ⟨by decide, by decide⟩

/-- C6 amended: the free function is invoked exactly once with the exact
`(ptr, len)` pair when the result buffer is non-null and non-empty; it is
invoked at most once in every case; and whether it is invoked depends only
on the data buffer, not on the `ok` flag or the error code. -/
theorem c6_free_exactly_once_when_nonempty :
    ∀ res : JhpCallResult,
      (res.data.ptr ≠ 0 → 0 < res.data.len → freeInvocations res = [res.data]) ∧
      (freeInvocations res).length ≤ 1 ∧
      (∀ res2 : JhpCallResult, res.data = res2.data →
        freeInvocations res = freeInvocations res2) := by
  intro res
  refine ⟨?_, ?_, ?_⟩
  · intro h1 h2
    simp [freeInvocations_eq, h1, h2]
  · rw [freeInvocations_eq]
    split <;> simp
  · intro res2 hdd
    rw [freeInvocations_eq, freeInvocations_eq, hdd]

/-- C6 witness: a failed call (`ok = false`) with a non-empty buffer still
frees exactly the returned pair. -/
theorem c6_witness :
    freeInvocations ⟨false, ⟨5, 3⟩, 7⟩ = [(⟨5, 3⟩ : JhpBuf)] :=
  (c6_free_exactly_once_when_nonempty ⟨false, ⟨5, 3⟩, 7⟩).1 (by decide) (by decide)

/-- C7 counterexample module: one native function and one bootstrap script
whose effect is that of `globalThis.count = (globalThis.count ?? 0) + 1`. -/
def c7Module : ModuleDef :=
  { objName := "Demo"
    funcs := [("foo", 1)]
    bootstraps := [fun g => setAssoc g "count"
      (.raw (match lookupAssoc g "count" with
             | some (.raw n) => n + 1
             | _ => 1))] }

/-- C7 counterexample: the installer re-executes bootstrap scripts on every
invocation, so invoking it twice is observably different from invoking it
once (the bootstrap counter reads 2 instead of 1). -/
theorem c7_bootstrap_counterexample :
    lookupAssoc (installModule c7Module (installModule c7Module [])) "count"
        = some (.raw 2) ∧
    lookupAssoc (installModule c7Module []) "count" = some (.raw 1) :=
  ⟨by decide, by decide⟩

/-- C7 amended: for a module without bootstrap scripts, invoking the
installer twice on a context leaves the observable global state (the result
of every property lookup, with module objects compared by their property
lookups) identical to invoking it once: the second invocation only
re-assigns the same properties. -/
theorem c7_installer_idempotent_without_bootstraps :
    ∀ (m : ModuleDef) (g : GState), m.bootstraps = [] →
      GStateObsEq (installModule m (installModule m g)) (installModule m g) := by
  intro m g hb
  rw [installModule_no_boot m hb, installModule_no_boot m hb, baseOf_setAssoc_self]
  intro k
  rw [lookup_setAssoc]
  by_cases hk : m.objName = k
  · rw [if_pos hk, lookup_setAssoc, if_pos hk]
    intro j
    exact lookup_applyFuncs_twice m.funcs (baseOf g m.objName) j
  · rw [if_neg hk, lookup_setAssoc, if_neg hk]
    cases h : lookupAssoc g k with
    | none => trivial
    | some v => exact GValObsEq_refl v

/-- C7 witness: a module with a function table and no bootstraps, on a
global that already holds an unrelated value, installs idempotently. -/
theorem c7_witness :
    GStateObsEq
      (installModule ⟨"Demo", [("foo", 1), ("bar", 2)], []⟩
        (installModule ⟨"Demo", [("foo", 1), ("bar", 2)], []⟩ [("x", .raw 9)]))
      (installModule ⟨"Demo", [("foo", 1), ("bar", 2)], []⟩ [("x", .raw 9)]) :=
  c7_installer_idempotent_without_bootstraps ⟨"Demo", [("foo", 1), ("bar", 2)], []⟩
    [("x", .raw 9)] rfl

/-- C8: render isolation.  First, the outcome of a render work item — its
reply and the buffer it leaves — does not depend on any executor state left
by earlier work items, because the render arm materialises a fresh context
and clears the shared buffer.  Second, within one render all blocks run in
one shared context: for the document `<? x = 5; ?><?= x ?>` the assignment
made by the earlier Script block is read by the later Expression block and
the reply is `5`; while a following render of `<?= x ?>` on the same
executor finds `x` undeclared (ReferenceError), so a global declared during
request A is undefined during request B. -/
theorem c8_render_isolation :
    (∀ (b1 b2 : List Char) (blocks : List CodeBlock) (res : String),
        execOp b1 (ExOp.render blocks res) = execOp b2 (ExOp.render blocks res)) ∧
    execOps [] [ExOp.render (parse "<? x = 5; ?><?= x ?>".data) "a.jhp",
        ExOp.render (parse "<?= x ?>".data) "b.jhp"]
      = some (errRunTrailer, [some "5".data, some errRunTrailer]) :=
  ⟨fun _ _ _ _ => rfl, by decide⟩

/-- C10: every render starts from an empty buffer.  Whatever an earlier
`Op::Javascript` work item appended to the shared buffer, a subsequent
render behaves exactly as a render from the empty buffer: the leftover text
never appears in the reply body. -/
theorem c10_render_clears_buffer :
    ∀ (buf code : List Char) (blocks : List CodeBlock) (res : String)
      (b2 : List Char) (r : Option (List Char)),
      execOp buf (ExOp.javascript code) = some (b2, r) →
      execOp b2 (ExOp.render blocks res) = execOp [] (ExOp.render blocks res) := by
  intro buf code blocks res b2 r _
  rfl

/-- C10 witness: an `Op::Javascript` item echoes `J` into the shared buffer
holding `OLD`, and the next render is unaffected by the `OLDJ` leftover. -/
theorem c10_witness :
    execOp "OLD".data (ExOp.javascript ("echo(".data ++ [btick] ++ "J".data ++ [btick] ++ ");".data))
        = some ("OLDJ".data, none) ∧
    execOp "OLDJ".data (ExOp.render (parse "<h1>Hi</h1>".data) "p.jhp")
        = execOp [] (ExOp.render (parse "<h1>Hi</h1>".data) "p.jhp") :=
  ⟨by decide,
    c10_render_clears_buffer "OLD".data
      ("echo(".data ++ [btick] ++ "J".data ++ [btick] ++ ");".data)
      (parse "<h1>Hi</h1>".data) "p.jhp" "OLDJ".data none (by decide)⟩

/-- C9 counterexample: the per-executor mailbox is created with capacity
equal to the executor count, which is 4 in the main invocation — not at
least 1024. -/
theorem c9_capacity_counterexample :
    executorMailboxCapacity mainNbExecutors = 4 ∧
    ¬ (1024 ≤ executorMailboxCapacity mainNbExecutors) :=
  ⟨rfl, by decide⟩

/-- C9 amended: every executor mailbox is created with capacity equal to
the number of executors in the pool, 4 for the main invocation. -/
theorem c9_capacity_equals_pool_size :
    (∀ nb : Nat, executorMailboxCapacity nb = nb) ∧
    executorMailboxCapacity mainNbExecutors = 4 :=
  ⟨fun _ => rfl, rfl⟩

/-! ## Agreement of the embedding with the repository test suite

The following evaluations reproduce the expectations of
`crates/parser/tests/parser_tests.rs` on the embedded parser. -/

/-- Test `parse_html_only`: one Html block covering the whole input. -/
theorem parse_agrees_test_html_only :
    parse "<h1>Hello</h1>\n<p>World</p>".data =
      [CodeBlock.html ⟨1, 1, "<h1>Hello</h1>\n<p>World</p>".data, 0⟩] := by decide

/-- Test `parse_simple_js_block`: inner spacing preserved, not trimmed. -/
theorem parse_agrees_test_simple_js_block :
    parse "<? let a = 1; ?>".data =
      [CodeBlock.javascript ⟨1, 3, " let a = 1; ".data, 0⟩] := by decide

/-- Test `parse_expression_block`: content trimmed, equals sign removed. -/
theorem parse_agrees_test_expression_block :
    parse "<?= 1 + 2 ?>".data =
      [CodeBlock.expression ⟨1, 5, "1 + 2".data, 0⟩] := by decide

/-- Test `nesting_levels_across_blocks`: 0, then 1 inside the brace, then
back to 0 at the closing brace. -/
theorem parse_agrees_test_nesting_levels :
    (parse "<? if (cond) \x7b ?>\ninside\n<? \x7d ?>".data).map
      (fun b => match b with
        | .html c => c.level
        | .javascript c => c.level
        | .expression c => c.level) = [0, 1, 0] := by decide

/-- Test `blocks_to_js_emits_expected_code`. -/
theorem blocks_to_js_agrees_test :
    blocks_to_js (parse "Hello <?= name ?>!\n<? log(name); ?>".data) =
      "echo(`Hello `);\necho(String(name));\necho(`!\n`);\nlog(name);".data := by decide

end Jhp
